import Mathlib

/-!
Verification of `vite-plugin-i18n` (`src/vite.ts`).

A shallow embedding of the i18n Vite plugin's core pipeline:

* `buildStart` — locale-code validation, locale-file loading/synthesis,
  fallback validation with the incremental cycle-detection walk, and
  aggregation of `localeNames`, `translations` and `pluralKeys`;
* `configResolved` — the `shouldInline` flag;
* `load` — the three virtual modules (locales / data / state), including the
  semantics of the generated state module's `setDefaultLocale`,
  `setLocaleGetter` and `getLocale`;
* `transform` — the extension gate in front of the external transform engine;
* `generateBundle` — the per-locale bundle replication pass.

JavaScript objects used as string-keyed maps are embedded as association
lists, JS truthiness of optional strings is made explicit, and the file
system is a function from locale code to the optional parsed content of
`<dir>/<locale>.json`.
-/

namespace I18n

/-! ## Association-list helpers (JS objects used as maps) -/

/-- Lookup `m[k]` on a JS object embedded as an association list. -/
def alookup {α : Type} (m : List (String × α)) (k : String) : Option α :=
  (m.find? (fun p => p.1 = k)).map (·.2)

/-- Assignment `m[k] = v` on a JS object embedded as an association list. -/
def aset {α : Type} (m : List (String × α)) (k : String) (v : α) :
    List (String × α) :=
  (k, v) :: m.filter (fun p => p.1 ≠ k)

@[simp] theorem alookup_nil {α : Type} (k : String) :
    alookup ([] : List (String × α)) k = none := rfl

@[simp] theorem alookup_cons {α : Type} (p : String × α) (m : List (String × α))
    (k : String) :
    alookup (p :: m) k = if p.1 = k then some p.2 else alookup m k := by
  simp only [alookup, List.find?]
  by_cases h : p.1 = k <;> simp [h]

theorem alookup_aset_self {α : Type} (m : List (String × α)) (k : String) (v : α) :
    alookup (aset m k v) k = some v := by
  simp [aset]

theorem alookup_filter_ne {α : Type} (m : List (String × α)) (k k' : String)
    (h : k ≠ k') :
    alookup (m.filter (fun p => p.1 ≠ k)) k' = alookup m k' := by
  induction m with
  | nil => rfl
  | cons p t ih =>
    by_cases hp : p.1 = k
    · have hp' : p.1 ≠ k' := fun hc => h (hp.symm.trans hc)
      rw [List.filter_cons, if_neg (by simp [hp]), ih, alookup_cons, if_neg hp']
    · rw [List.filter_cons, if_pos (by simp [hp]), alookup_cons, alookup_cons, ih]

theorem alookup_aset_other {α : Type} (m : List (String × α)) (k k' : String)
    (v : α) (h : k ≠ k') : alookup (aset m k v) k' = alookup m k' := by
  simp only [aset, alookup_cons, if_neg h]
  exact alookup_filter_ne m k k' h

/-- JS truthiness of an optional string: `undefined` and `""` are falsy. -/
def isTruthy : Option String → Bool
  | none => false
  | some s => s ≠ ""

/-- An optional string, defaulted to the empty string. -/
def orEmpty : Option String → String
  | none => ""
  | some s => s

@[simp] theorem isTruthy_none : isTruthy none = false := rfl
@[simp] theorem isTruthy_some (s : String) : isTruthy (some s) = (s ≠ "" : Bool) := rfl

/-! ## Locale codes: the regex `^([a-z]{2})([_-]([A-Z]{2}))?$` -/

/-- Matches `[a-z]` (ASCII). -/
def isAsciiLower (c : Char) : Bool := 'a' ≤ c && c ≤ 'z'

/-- Matches `[A-Z]` (ASCII). -/
def isAsciiUpper (c : Char) : Bool := 'A' ≤ c && c ≤ 'Z'

/-- The regex match on the character list of a locale string.  On success it
returns the capture groups: `match[1]` (the language) and `match[3]` (the
optional region). -/
def localeMatchL : List Char → Option (List Char × Option (List Char))
  | [a, b] =>
      if isAsciiLower a && isAsciiLower b then some ([a, b], none) else none
  | [a, b, s, c, d] =>
      if isAsciiLower a && isAsciiLower b && (s = '_' || s = '-') &&
          isAsciiUpper c && isAsciiUpper d then
        some ([a, b], some [c, d])
      else none
  | _ => none

/-- Evaluates the regex exec from `buildStart` on a configured locale. -/
def localeMatch (s : String) : Option (String × Option String) :=
  (localeMatchL s.toList).map (fun m => (String.mk m.1, m.2.map String.mk))

/-- The default display name: `match[3] ? `${match[1]} (${match[3]})` : locale`. -/
def defaultName (locale : String) (m : String × Option String) : String :=
  match m.2 with
  | some reg => m.1 ++ " (" ++ reg ++ ")"
  | none => locale

/-! ## Locale resource files -/

/-- A translation value in a locale file: a scalar string or a plural-form
object (`{<plural-form-key>: string, ...}`), following the locale resource
file interface. -/
inductive TrValue : Type
  | str (s : String)
  | obj (forms : List (String × String))
deriving DecidableEq, Repr

/-- `tr && typeof tr === 'object'`: only the plural-form objects qualify
(an object literal is always truthy). -/
def TrValue.isObj : TrValue → Bool
  | .str _ => false
  | .obj _ => true

/-- The parsed content of a locale resource file `<dir>/<locale>.json`. -/
structure Data : Type where
  locale : String
  name : Option String := none
  fallback : Option String := none
  translations : List (String × TrValue) := []
deriving DecidableEq, Repr

/-- The file system under the locales directory, keyed by locale code:
`fs l` is the parsed content of `<dir>/<l>.json` when that file exists. -/
def LocaleFS : Type := String → Option Data

/-- The build errors `buildStart` can throw. -/
inductive BuildError : Type
  | invalidLocale (locale : String)
  | localeMismatch (locale : String) (found : String)
  | invalidFallback (locale : String) (fallback : String)
  | circularFallback (locale : String) (fallback : String)
deriving DecidableEq, Repr

/-- The plugin state accumulated by `buildStart`: the (possibly written-to)
locales directory plus the closure variables `fallbacks`, `translations`,
`pluralKeys` and `localeNames`. -/
structure BuildState : Type where
  fs : LocaleFS
  fallbacks : List (String × String) := []
  translations : List (String × Data) := []
  pluralKeys : List String := []
  localeNames : List (String × String) := []

/-- Outcome of a `buildStart` prefix: normal return, a thrown `BuildError`,
or divergence of the cycle-detection walk.  Every constructor carries the
state at that point (the file writes performed so far). -/
inductive StepResult : Type
  | ok (st : BuildState)
  | err (e : BuildError) (st : BuildState)
  | diverge (st : BuildState)

/-- The state carried by a `StepResult`. -/
def StepResult.state : StepResult → BuildState
  | .ok st => st
  | .err _ st => st
  | .diverge st => st

@[simp] theorem StepResult.state_ok (st : BuildState) : (StepResult.ok st).state = st := rfl
@[simp] theorem StepResult.state_err (e : BuildError) (st : BuildState) :
    (StepResult.err e st).state = st := rfl
@[simp] theorem StepResult.state_diverge (st : BuildState) :
    (StepResult.diverge st).state = st := rfl

/-! ## The cycle-detection walk

```js
let follow
while ((follow = fallbacks[data.fallback])) {
  if (follow === locale) throw new Error(`... (circular fallback ...)`)
}
```

The loop condition re-reads `fallbacks[data.fallback]` with both maps and
key unchanged by the body, so a single read determines the outcome: exit
when the lookup is falsy, throw when it returns `locale`, and loop forever
otherwise.  `walkFuel` is the literal iteration; `walkOutcome` is its
closed form, justified by `walkFuel_eq_walkOutcome`. -/

inductive WalkOutcome : Type
  | exit
  | threw
  | diverge
deriving DecidableEq, Repr

/-- One observation of the loop condition decides the loop. -/
def walkOutcome (fallbacks : List (String × String)) (locale fb : String) :
    WalkOutcome :=
  match alookup fallbacks fb with
  | none => .exit
  | some follow =>
      if follow = "" then .exit
      else if follow = locale then .threw else .diverge

/-- The loop, iterated literally with fuel; `none` means the fuel ran out. -/
def walkFuel (fallbacks : List (String × String)) (locale fb : String) :
    Nat → Option WalkOutcome
  | 0 => none
  | n + 1 =>
      match alookup fallbacks fb with
      | none => some .exit
      | some follow =>
          if follow = "" then some .exit
          else if follow = locale then some .threw
          else walkFuel fallbacks locale fb n

/-- The closed form is faithful: with any fuel, the literal loop either
reports `walkOutcome` or — exactly in the `diverge` case — exhausts every
fuel bound, i.e. runs forever. -/
theorem walkFuel_eq_walkOutcome (fallbacks : List (String × String))
    (locale fb : String) (n : Nat) :
    walkFuel fallbacks locale fb (n + 1) =
      if walkOutcome fallbacks locale fb = .diverge then none
      else some (walkOutcome fallbacks locale fb) := by
  induction n with
  | zero =>
    simp only [walkFuel, walkOutcome]
    cases h : alookup fallbacks fb with
    | none => simp
    | some follow =>
      by_cases h1 : follow = ""
      · simp [h1]
      · by_cases h2 : follow = locale
        · subst h2; simp [h1]
        · simp [h1, h2]
  | succ k ih =>
    simp only [walkFuel] at ih ⊢
    cases h : alookup fallbacks fb with
    | none => simp [walkOutcome, h]
    | some follow =>
      simp only [h] at ih
      by_cases h1 : follow = ""
      · simp_all [walkOutcome]
      · by_cases h2 : follow = locale
        · subst h2; simp_all [walkOutcome]
        · simp_all [walkOutcome]

/-! ## `buildStart` -/

/-- The keys of the plural (object-valued) entries of a translations map:
`for (const [key, tr] of Object.entries(data.translations)) if (tr && typeof
tr === 'object') pluralKeys.add(key)`. -/
def objKeys (tr : List (String × TrValue)) : List String :=
  (tr.filter (fun p => p.2.isObj)).map (·.1)

/-- The common tail of one loop iteration: `localeNames[locale] = data.name;
translations[locale] = data;` plus the `pluralKeys` aggregation. -/
def storeData (st : BuildState) (locale : String) (d : Data) : BuildState :=
  { st with
    localeNames := aset st.localeNames locale (orEmpty d.name)
    translations := aset st.translations locale d
    pluralKeys := st.pluralKeys ++ objKeys d.translations }

/-- The record synthesized for a missing locale file. -/
def mkDefault (locale : String) (m : String × Option String) : Data :=
  { locale := locale, name := some (defaultName locale m), translations := [] }

/-- Embeds `if (!data.name) data.name = ...` — the in-place
name back-fill performed on a loaded record. -/
def backfill (locale : String) (m : String × Option String) (d₀ : Data) : Data :=
  if isTruthy d₀.name then d₀ else { d₀ with name := some (defaultName locale m) }

@[simp] theorem backfill_locale (locale : String) (m : String × Option String)
    (d₀ : Data) : (backfill locale m d₀).locale = d₀.locale := by
  unfold backfill; split <;> rfl

@[simp] theorem backfill_fallback (locale : String) (m : String × Option String)
    (d₀ : Data) : (backfill locale m d₀).fallback = d₀.fallback := by
  unfold backfill; split <;> rfl

@[simp] theorem backfill_translations (locale : String) (m : String × Option String)
    (d₀ : Data) : (backfill locale m d₀).translations = d₀.translations := by
  unfold backfill; split <;> rfl

/-- Embeds the `fs.writeFileSync` call: the file
system after writing record `d` for `locale`. -/
def fsWrite (fs : LocaleFS) (locale : String) (d : Data) : LocaleFS :=
  fun k => if k = locale then some d else fs k

/-- One iteration of the `for (const locale of locales)` loop of
`buildStart` (`cfg` is the configured `locales` list, consulted by the
`locales.includes(data.fallback)` check). -/
def processLocale (cfg : List String) (st : BuildState) (locale : String) :
    StepResult :=
  match localeMatch locale with
  | none => .err (.invalidLocale locale) st
  | some m =>
    match st.fs locale with
    | some d₀ =>
      if d₀.locale ≠ locale then .err (.localeMismatch locale d₀.locale) st
      else if isTruthy (backfill locale m d₀).fallback then
        if ¬ cfg.contains (orEmpty (backfill locale m d₀).fallback) then
          .err (.invalidFallback locale (orEmpty (backfill locale m d₀).fallback)) st
        else
          match walkOutcome st.fallbacks locale
              (orEmpty (backfill locale m d₀).fallback) with
          | .threw =>
              .err (.circularFallback locale
                (orEmpty (backfill locale m d₀).fallback)) st
          | .diverge => .diverge st
          | .exit =>
              .ok (storeData
                { st with
                  fallbacks := aset st.fallbacks locale
                    (orEmpty (backfill locale m d₀).fallback) }
                locale (backfill locale m d₀))
      else .ok (storeData st locale (backfill locale m d₀))
    | none =>
      .ok (storeData { st with fs := fsWrite st.fs locale (mkDefault locale m) }
        locale (mkDefault locale m))

/-- The loop over the configured locales, stopping at the first thrown
error or divergence. -/
def buildStartAux (cfg : List String) : List String → BuildState → StepResult
  | [], st => .ok st
  | l :: ls, st =>
    match processLocale cfg st l with
    | .ok st' => buildStartAux cfg ls st'
    | .err e st' => .err e st'
    | .diverge st' => .diverge st'

/-- The initial plugin state over a locales directory. -/
def initState (fs : LocaleFS) : BuildState :=
  { fs := fs }

/-- The `buildStart` hook: validate/load every configured locale in order. -/
def buildStart (cfg : List String) (fs : LocaleFS) : StepResult :=
  buildStartAux cfg cfg (initState fs)

/-! ## Structural lemmas about `processLocale` and `buildStartAux` -/

@[simp] theorem storeData_fs (st : BuildState) (l : String) (d : Data) :
    (storeData st l d).fs = st.fs := rfl

@[simp] theorem storeData_pluralKeys (st : BuildState) (l : String) (d : Data) :
    (storeData st l d).pluralKeys = st.pluralKeys ++ objKeys d.translations := rfl

@[simp] theorem storeData_translations (st : BuildState) (l : String) (d : Data) :
    (storeData st l d).translations = aset st.translations l d := rfl

@[simp] theorem storeData_localeNames (st : BuildState) (l : String) (d : Data) :
    (storeData st l d).localeNames = aset st.localeNames l (orEmpty d.name) := rfl

/-- The translations of the file for `l`, empty when the file is absent. -/
def trOf (fs : LocaleFS) (l : String) : List (String × TrValue) :=
  match fs l with
  | some d => d.translations
  | none => []

@[simp] theorem mkDefault_locale (l : String) (m : String × Option String) :
    (mkDefault l m).locale = l := rfl
@[simp] theorem mkDefault_name (l : String) (m : String × Option String) :
    (mkDefault l m).name = some (defaultName l m) := rfl
@[simp] theorem mkDefault_fallback (l : String) (m : String × Option String) :
    (mkDefault l m).fallback = none := rfl
@[simp] theorem mkDefault_translations (l : String) (m : String × Option String) :
    (mkDefault l m).translations = [] := rfl

/-- Unfolds `processLocale` for a well-formed code with an existing file. -/
theorem processLocale_loaded (cfg : List String) (st : BuildState)
    (locale : String) (m : String × Option String) (d₀ : Data)
    (hm : localeMatch locale = some m) (hfs : st.fs locale = some d₀) :
    processLocale cfg st locale =
      (if d₀.locale ≠ locale then .err (.localeMismatch locale d₀.locale) st
       else if isTruthy (backfill locale m d₀).fallback then
         if ¬ cfg.contains (orEmpty (backfill locale m d₀).fallback) then
           .err (.invalidFallback locale (orEmpty (backfill locale m d₀).fallback)) st
         else
           match walkOutcome st.fallbacks locale
               (orEmpty (backfill locale m d₀).fallback) with
           | .threw =>
               .err (.circularFallback locale
                 (orEmpty (backfill locale m d₀).fallback)) st
           | .diverge => .diverge st
           | .exit =>
               .ok (storeData
                 { st with
                   fallbacks := aset st.fallbacks locale
                     (orEmpty (backfill locale m d₀).fallback) }
                 locale (backfill locale m d₀))
       else .ok (storeData st locale (backfill locale m d₀))) := by
  unfold processLocale
  rw [hm, hfs]

theorem processLocale_invalid (cfg : List String) (st : BuildState)
    (locale : String) (h : localeMatch locale = none) :
    processLocale cfg st locale = .err (.invalidLocale locale) st := by
  simp [processLocale, h]

/-- When the locale file exists, `processLocale` performs no write. -/
theorem processLocale_fs_of_some (cfg : List String) (st : BuildState)
    (locale : String) (d : Data) (h : st.fs locale = some d) :
    ((processLocale cfg st locale).state).fs = st.fs := by
  unfold processLocale
  cases hm : localeMatch locale with
  | none => rfl
  | some m =>
    simp only [h]
    repeat' split
    all_goals rfl

/-- When the locale file is absent and the code is well-formed,
`processLocale` synthesizes the default record and writes it. -/
theorem processLocale_absent (cfg : List String) (st : BuildState)
    (locale : String) (m : String × Option String)
    (hm : localeMatch locale = some m) (hfs : st.fs locale = none) :
    processLocale cfg st locale =
      .ok (storeData { st with fs := fsWrite st.fs locale (mkDefault locale m) }
        locale (mkDefault locale m)) := by
  unfold processLocale
  simp only [hm, hfs]

/-- One iteration never touches the file of another locale. -/
theorem processLocale_fs_ne (cfg : List String) (st : BuildState)
    (locale k : String) (hk : k ≠ locale) :
    ((processLocale cfg st locale).state).fs k = st.fs k := by
  unfold processLocale
  cases hm : localeMatch locale with
  | none => rfl
  | some m =>
    cases hfs : st.fs locale with
    | some d₀ =>
      repeat' split
      all_goals first
      | rfl
      | simp_all
    | none =>
      show (fsWrite st.fs locale (mkDefault locale m)) k = st.fs k
      simp [fsWrite, hk]

/-- An existing file is never overwritten by one iteration. -/
theorem processLocale_fs_mono (cfg : List String) (st : BuildState)
    (locale k : String) (d : Data) (h : st.fs k = some d) :
    ((processLocale cfg st locale).state).fs k = some d := by
  by_cases hk : k = locale
  · subst hk
    rw [processLocale_fs_of_some cfg st k d h]
    exact h
  · rw [processLocale_fs_ne cfg st locale k hk]
    exact h

/-- An existing file is never overwritten by the whole loop. -/
theorem buildStartAux_fs_mono (cfg : List String) (rest : List String)
    (st : BuildState) (k : String) (d : Data) (h : st.fs k = some d) :
    ((buildStartAux cfg rest st).state).fs k = some d := by
  induction rest generalizing st with
  | nil => exact h
  | cons x t ih =>
    unfold buildStartAux
    cases hp : processLocale cfg st x with
    | ok st₁ =>
      have h1 : st₁.fs k = some d := by
        have h2 := processLocale_fs_mono cfg st x k d h
        rwa [hp] at h2
      exact ih st₁ h1
    | err e st₁ =>
      have h2 := processLocale_fs_mono cfg st x k d h
      rwa [hp] at h2
    | diverge st₁ =>
      have h2 := processLocale_fs_mono cfg st x k d h
      rwa [hp] at h2

/-- How the locales directory can evolve during `buildStart`: each file is
either untouched, or was absent and now holds the synthesized default
record of its own locale. -/
def FsEvolved (fs0 g : LocaleFS) : Prop :=
  ∀ k, g k = fs0 k ∨
    (fs0 k = none ∧ ∃ m, localeMatch k = some m ∧ g k = some (mkDefault k m))

theorem fsEvolved_refl (fs0 : LocaleFS) : FsEvolved fs0 fs0 :=
  fun _ => Or.inl rfl

theorem processLocale_fsEvolved (cfg : List String) (st : BuildState)
    (locale : String) (fs0 : LocaleFS) (hev : FsEvolved fs0 st.fs) :
    FsEvolved fs0 ((processLocale cfg st locale).state).fs := by
  intro k
  by_cases hk : k = locale
  · subst hk
    cases hfs : st.fs k with
    | some d =>
      rw [processLocale_fs_of_some cfg st k d hfs]
      exact hev k
    | none =>
      have hfs0 : fs0 k = none := by
        rcases hev k with h | ⟨h, _⟩
        · rw [← h, hfs]
        · exact h
      cases hm : localeMatch k with
      | none =>
        rw [processLocale_invalid cfg st k hm]
        left
        rw [StepResult.state_err, hfs, hfs0]
      | some m =>
        rw [processLocale_absent cfg st k m hm hfs]
        right
        exact ⟨hfs0, m, rfl, by simp [fsWrite]⟩
  · rw [processLocale_fs_ne cfg st locale k hk]
    exact hev k

/-- Which keys one iteration adds to `pluralKeys`: exactly the object-valued
keys of the processed locale's on-disk translations. -/
theorem processLocale_ok_pluralKeys (cfg : List String) (st : BuildState)
    (locale : String) (st' : BuildState)
    (h : processLocale cfg st locale = .ok st') :
    st'.pluralKeys = st.pluralKeys ++ objKeys (trOf st.fs locale) := by
  unfold processLocale at h
  cases hm : localeMatch locale with
  | none =>
    rw [hm] at h
    exact absurd h (by simp)
  | some m =>
    rw [hm] at h
    cases hfs : st.fs locale with
    | none =>
      rw [hfs] at h
      injection h with h1
      subst h1
      simp [trOf, hfs, mkDefault, objKeys]
    | some d₀ =>
      rw [hfs] at h
      repeat' split at h
      all_goals cases h
      all_goals simp_all [trOf]

theorem trOf_evolved (fs0 g : LocaleFS) (hev : FsEvolved fs0 g) (l : String) :
    trOf g l = trOf fs0 l := by
  rcases hev l with h | ⟨h0, m, _, h⟩
  · unfold trOf
    rw [h]
  · unfold trOf
    rw [h, h0]
    rfl

theorem buildStartAux_fsEvolved (cfg : List String) (rest : List String)
    (st : BuildState) (fs0 : LocaleFS) (hev : FsEvolved fs0 st.fs) :
    FsEvolved fs0 ((buildStartAux cfg rest st).state).fs := by
  induction rest generalizing st with
  | nil => exact hev
  | cons x t ih =>
    unfold buildStartAux
    cases hp : processLocale cfg st x with
    | ok st₁ =>
      refine ih st₁ ?_
      have := processLocale_fsEvolved cfg st x fs0 hev
      rwa [hp] at this
    | err e st₁ =>
      have := processLocale_fsEvolved cfg st x fs0 hev
      rwa [hp] at this
    | diverge st₁ =>
      have := processLocale_fsEvolved cfg st x fs0 hev
      rwa [hp] at this

/-- The `pluralKeys` accumulated over a suffix of the loop, relative to the
pristine directory `fs0` the build started from. -/
theorem buildStartAux_pluralKeys (cfg : List String) (rest : List String)
    (st st' : BuildState) (fs0 : LocaleFS)
    (hok : buildStartAux cfg rest st = .ok st') (hev : FsEvolved fs0 st.fs)
    (k : String) :
    k ∈ st'.pluralKeys ↔
      k ∈ st.pluralKeys ∨ ∃ l ∈ rest, k ∈ objKeys (trOf fs0 l) := by
  induction rest generalizing st with
  | nil =>
    unfold buildStartAux at hok
    injection hok with h1
    subst h1
    simp
  | cons x t ih =>
    unfold buildStartAux at hok
    cases hp : processLocale cfg st x with
    | ok st₁ =>
      rw [hp] at hok
      have hpk := processLocale_ok_pluralKeys cfg st x st₁ hp
      rw [trOf_evolved fs0 st.fs hev x] at hpk
      have hev₁ : FsEvolved fs0 st₁.fs := by
        have h2 := processLocale_fsEvolved cfg st x fs0 hev
        rwa [hp] at h2
      rw [ih st₁ hok hev₁, hpk]
      simp only [List.mem_append, List.mem_cons]
      constructor
      · rintro ((h | h) | ⟨l, hl, h⟩)
        · exact Or.inl h
        · exact Or.inr ⟨x, Or.inl rfl, h⟩
        · exact Or.inr ⟨l, Or.inr hl, h⟩
      · rintro (h | ⟨l, hl | hl, h⟩)
        · exact Or.inl (Or.inl h)
        · exact Or.inl (Or.inr (hl ▸ h))
        · exact Or.inr ⟨l, hl, h⟩
    | err e st₁ =>
      rw [hp] at hok
      exact absurd hok (by simp)
    | diverge st₁ =>
      rw [hp] at hok
      exact absurd hok (by simp)

theorem mem_objKeys (k : String) (tr : List (String × TrValue)) :
    k ∈ objKeys tr ↔ ∃ v, (k, v) ∈ tr ∧ v.isObj = true := by
  unfold objKeys
  simp only [List.mem_map, List.mem_filter]
  constructor
  · rintro ⟨⟨k', v⟩, ⟨hm, hobj⟩, rfl⟩
    exact ⟨v, hm, hobj⟩
  · rintro ⟨v, hm, hobj⟩
    exact ⟨(k, v), ⟨hm, hobj⟩, rfl⟩

theorem isObj_iff (v : TrValue) : v.isObj = true ↔ ∃ forms, v = .obj forms := by
  cases v <;> simp [TrValue.isObj]

/-- Characterizes `pluralKeys` after a successful `buildStart` against the
initial directory contents. -/
theorem buildStart_pluralKeys (cfg : List String) (fs : LocaleFS)
    (st : BuildState) (hok : buildStart cfg fs = .ok st) (k : String) :
    k ∈ st.pluralKeys ↔
      ∃ l ∈ cfg, ∃ d, fs l = some d ∧
        ∃ forms, (k, TrValue.obj forms) ∈ d.translations := by
  have h := buildStartAux_pluralKeys cfg cfg (initState fs) st fs hok
    (fsEvolved_refl fs) k
  have hinit : (initState fs).pluralKeys = [] := rfl
  rw [hinit] at h
  simp only [List.not_mem_nil, false_or] at h
  rw [h]
  constructor
  · rintro ⟨l, hl, hk⟩
    rw [mem_objKeys] at hk
    obtain ⟨v, hv, hobj⟩ := hk
    rw [isObj_iff] at hobj
    obtain ⟨forms, rfl⟩ := hobj
    unfold trOf at hv
    cases hfs : fs l with
    | none => rw [hfs] at hv; simp at hv
    | some d =>
      rw [hfs] at hv
      exact ⟨l, hl, d, hfs, forms, hv⟩
  · rintro ⟨l, hl, d, hd, forms, hm⟩
    refine ⟨l, hl, ?_⟩
    rw [mem_objKeys]
    refine ⟨TrValue.obj forms, ?_, rfl⟩
    unfold trOf
    rw [hd]
    exact hm

/-! ## The locale-code pattern, in the spec's words -/

/-- The spec's description of a locale code: two lowercase letters,
optionally followed by an underscore or hyphen and two uppercase letters. -/
def specLocalePattern (s : String) : Prop :=
  (∃ a b, s.toList = [a, b] ∧ isAsciiLower a = true ∧ isAsciiLower b = true) ∨
  (∃ a b sep c d, s.toList = [a, b, sep, c, d] ∧
    isAsciiLower a = true ∧ isAsciiLower b = true ∧
    (sep = '_' ∨ sep = '-') ∧ isAsciiUpper c = true ∧ isAsciiUpper d = true)

theorem localeMatchL_isSome_iff (l : List Char) :
    (localeMatchL l).isSome = true ↔
      ((∃ a b, l = [a, b] ∧ isAsciiLower a = true ∧ isAsciiLower b = true) ∨
       (∃ a b sep c d, l = [a, b, sep, c, d] ∧
         isAsciiLower a = true ∧ isAsciiLower b = true ∧
         (sep = '_' ∨ sep = '-') ∧ isAsciiUpper c = true ∧
         isAsciiUpper d = true)) := by
  constructor
  · intro h
    rcases l with _ | ⟨a, t1⟩
    · simp [localeMatchL] at h
    rcases t1 with _ | ⟨b, t2⟩
    · simp [localeMatchL] at h
    rcases t2 with _ | ⟨s, t3⟩
    · simp only [localeMatchL] at h
      split at h
      · rename_i hc
        rw [Bool.and_eq_true] at hc
        exact Or.inl ⟨a, b, rfl, hc.1, hc.2⟩
      · simp at h
    rcases t3 with _ | ⟨c, t4⟩
    · simp [localeMatchL] at h
    rcases t4 with _ | ⟨d, t5⟩
    · simp [localeMatchL] at h
    rcases t5 with _ | ⟨e, t6⟩
    · simp only [localeMatchL] at h
      split at h
      · rename_i hc
        simp only [Bool.and_eq_true, Bool.or_eq_true, decide_eq_true_eq] at hc
        obtain ⟨⟨⟨⟨h1, h2⟩, hsep⟩, h3⟩, h4⟩ := hc
        exact Or.inr ⟨a, b, s, c, d, rfl, h1, h2, hsep, h3, h4⟩
      · simp at h
    · simp [localeMatchL] at h
  · rintro (⟨a, b, rfl, h1, h2⟩ | ⟨a, b, s, c, d, rfl, h1, h2, hsep, h3, h4⟩)
    · simp [localeMatchL, h1, h2]
    · rcases hsep with rfl | rfl <;> simp [localeMatchL, h1, h2, h3, h4]

/-- The regex accepts exactly the codes the spec describes. -/
theorem localeMatch_isSome_iff (s : String) :
    (localeMatch s).isSome = true ↔ specLocalePattern s := by
  unfold localeMatch specLocalePattern
  rw [← localeMatchL_isSome_iff s.toList]
  cases localeMatchL s.toList <;> simp

/-- One iteration throws the invalid-locale error exactly for a failed
regex match, and the error names the offending locale. -/
theorem processLocale_invalidLocale_iff (cfg : List String) (st : BuildState)
    (locale l' : String) (st' : BuildState) :
    processLocale cfg st locale = .err (.invalidLocale l') st' ↔
      localeMatch locale = none ∧ l' = locale ∧ st' = st := by
  constructor
  · intro h
    cases hm : localeMatch locale with
    | none =>
      rw [processLocale_invalid cfg st locale hm] at h
      cases h
      exact ⟨rfl, rfl, rfl⟩
    | some m =>
      exfalso
      cases hfs : st.fs locale with
      | some d₀ =>
        rw [processLocale_loaded cfg st locale m d₀ hm hfs] at h
        repeat' split at h
        all_goals cases h
      | none =>
        rw [processLocale_absent cfg st locale m hm hfs] at h
        cases h
  · rintro ⟨hm, rfl, rfl⟩
    exact processLocale_invalid _ _ _ hm

/-- A successful `buildStart` prefix has validated every processed code. -/
theorem buildStartAux_ok_valid (cfg : List String) (rest : List String)
    (st st' : BuildState) (hok : buildStartAux cfg rest st = .ok st') :
    ∀ l ∈ rest, (localeMatch l).isSome = true := by
  induction rest generalizing st with
  | nil => simp
  | cons x t ih =>
    intro l hl
    unfold buildStartAux at hok
    cases hp : processLocale cfg st x with
    | ok st₁ =>
      rw [hp] at hok
      have hok' : buildStartAux cfg t st₁ = .ok st' := hok
      rcases List.mem_cons.mp hl with rfl | hl'
      · cases hlm : localeMatch l with
        | some m => simp
        | none =>
          rw [processLocale_invalid cfg st l hlm] at hp
          cases hp
      · exact ih st₁ hok' l hl'
    | err e st₁ =>
      rw [hp] at hok
      exact absurd (hok : StepResult.err e st₁ = .ok st') (by simp)
    | diverge st₁ =>
      rw [hp] at hok
      exact absurd (hok : StepResult.diverge st₁ = .ok st') (by simp)

/-! ## The synthesized default record -/

theorem defaultName_ne (locale : String) (m : String × Option String)
    (hm : localeMatch locale = some m) : defaultName locale m ≠ "" := by
  unfold defaultName
  cases hm2 : m.2 with
  | some reg =>
    intro hc
    have hc' : m.1 ++ " (" ++ reg ++ ")" = "" := hc
    have hdata := congrArg String.data hc'
    have hsp : (" (" : String).data = [' ', '('] := rfl
    simp [String.data_append, hsp] at hdata
  | none =>
    intro hc
    have hc' : locale = "" := hc
    rw [hc'] at hm
    have hnone : localeMatch "" = none := rfl
    rw [hnone] at hm
    cases hm

/-- Re-reading a synthesized default record validates cleanly and stores
the very same record, without touching the file system. -/
theorem processLocale_default_file (cfg : List String) (st : BuildState)
    (locale : String) (m : String × Option String)
    (hm : localeMatch locale = some m)
    (hfs : st.fs locale = some (mkDefault locale m)) :
    processLocale cfg st locale = .ok (storeData st locale (mkDefault locale m)) := by
  have hname : isTruthy (mkDefault locale m).name = true := by
    simp [mkDefault, isTruthy, defaultName_ne locale m hm]
  have hbf : backfill locale m (mkDefault locale m) = mkDefault locale m := by
    unfold backfill
    rw [if_pos hname]
  rw [processLocale_loaded cfg st locale m (mkDefault locale m) hm hfs]
  simp [hbf]

/-- If a configured locale's file was absent at the start of a successful
`buildStart` run, the final file system holds its synthesized default. -/
theorem buildStartAux_mem_none (cfg : List String) (rest : List String)
    (st st' : BuildState) (hok : buildStartAux cfg rest st = .ok st')
    (l : String) (hl : l ∈ rest) (hnone : st.fs l = none) :
    ∃ m, localeMatch l = some m ∧ st'.fs l = some (mkDefault l m) := by
  induction rest generalizing st with
  | nil => cases hl
  | cons x t ih =>
    unfold buildStartAux at hok
    cases hp : processLocale cfg st x with
    | ok st₁ =>
      rw [hp] at hok
      have hok' : buildStartAux cfg t st₁ = .ok st' := hok
      by_cases hx : l = x
      · subst hx
        cases hm : localeMatch l with
        | none =>
          rw [processLocale_invalid cfg st l hm] at hp
          cases hp
        | some m =>
          rw [processLocale_absent cfg st l m hm hnone] at hp
          injection hp with h1
          have hst₁ : st₁.fs l = some (mkDefault l m) := by
            rw [← h1]
            simp [fsWrite]
          refine ⟨m, rfl, ?_⟩
          have h2 := buildStartAux_fs_mono cfg t st₁ l (mkDefault l m) hst₁
          rw [hok'] at h2
          exact h2
      · rcases List.mem_cons.mp hl with h | h
        · exact absurd h hx
        · have hst₁ : st₁.fs l = none := by
            have h3 := processLocale_fs_ne cfg st x l hx
            rw [hp] at h3
            rw [StepResult.state_ok] at h3
            rw [h3, hnone]
          exact ih st₁ hok' h hst₁
    | err e st₁ =>
      rw [hp] at hok
      exact absurd (hok : StepResult.err e st₁ = .ok st') (by simp)
    | diverge st₁ =>
      rw [hp] at hok
      exact absurd (hok : StepResult.diverge st₁ = .ok st') (by simp)

/-! ## `configResolved`: the `shouldInline` flag -/

/-- A JavaScript value as far as truthiness is concerned; `config.build.ssr`
may be a boolean, a string, or absent. -/
inductive JsVal : Type
  | undef
  | bool (b : Bool)
  | str (s : String)
deriving DecidableEq, Repr

/-- Truthiness `!!v`. -/
def jsTruthy : JsVal → Bool
  | .undef => false
  | .bool b => b
  | .str s => s ≠ ""

/-- The slice of Vite's resolved config the plugin reads. -/
structure ResolvedConfig : Type where
  ssr : JsVal
  isProduction : Bool

/-- Embeds `shouldInline = !!config.build.ssr || !config.isProduction`. -/
def computeShouldInline (config : ResolvedConfig) : Bool :=
  jsTruthy config.ssr || !config.isProduction

/-! ## The locales virtual module (`\0i18n-locales.js`) -/

/-- What the locales module's generated source amounts to: either the empty
module, or one `export {default as <locale>} from '<path>'` per locale. -/
inductive LocalesModule : Type
  | empty
  | reexports (entries : List (String × String))
deriving DecidableEq, Repr

/-- The `load` hook's answer for `\0i18n-locales.js`. -/
def loadLocalesModule (shouldInline : Bool) (locales : List String)
    (localesDirAbs : String) : LocalesModule :=
  if shouldInline then .empty
  else .reexports
    (locales.map (fun l => (l, localesDirAbs ++ "/" ++ l ++ ".json")))

/-! ## The state virtual module (`\0i18n-state.js`)

The generated JS is a string template in `load`; its semantics is embedded
here: `_checkLocale` consults the `localeNames` mapping of the data module,
`setDefaultLocale` validates then assigns, and the getter installed by
`setLocaleGetter` falls back to `defaultLocale` on a falsy result,
validates, caches into `currentLocale` and returns. -/

/-- The mutable cells of the generated state module. -/
structure I18nState : Type where
  defaultLocale : String
  currentLocale : String
deriving DecidableEq, Repr

/-- A synchronous JS outcome: a value, or a thrown
`TypeError(`unknown locale ...`)` naming the offending locale. -/
inductive JsOutcome (α : Type) : Type
  | ok (v : α)
  | typeError (locale : String)
deriving DecidableEq, Repr

/-- Embeds `_checkLocale`, which throws unless the mapping holds the locale:
passes exactly when the mapping holds a truthy name for `l`. -/
def checkLocale (localeNames : List (String × String)) (l : String) : Bool :=
  isTruthy (alookup localeNames l)

/-- Embeds `setDefaultLocale = l => { _checkLocale(l); defaultLocale = l }`. -/
def setDefaultLocale (localeNames : List (String × String)) (st : I18nState)
    (l : String) : JsOutcome I18nState :=
  if checkLocale localeNames l then .ok { st with defaultLocale := l }
  else .typeError l

/-- Computes `const l = fn() || defaultLocale`: the getter's result, falling back to
the default locale when `fn()` returned a falsy value (`none` =
`undefined`). -/
def effectiveLocale (st : I18nState) (fnResult : Option String) : String :=
  if isTruthy fnResult then orEmpty fnResult else st.defaultLocale

/-- One call of the getter installed by `setLocaleGetter(fn)`, given the
value `fn()` returned:
`const l = fn() || defaultLocale; _checkLocale(l); currentLocale = l; return l`. -/
def registeredGetLocale (localeNames : List (String × String)) (st : I18nState)
    (fnResult : Option String) : JsOutcome (I18nState × String) :=
  if checkLocale localeNames (effectiveLocale st fnResult) then
    .ok ({ st with currentLocale := effectiveLocale st fnResult },
         effectiveLocale st fnResult)
  else .typeError (effectiveLocale st fnResult)

/-! ## The `transform` hook's gate -/

/-- The alternatives of `/\.(cjs|js|mjs|ts|jsx|tsx)($|\?)/`. -/
def srcExtensions : List String := ["cjs", "js", "mjs", "ts", "jsx", "tsx"]

/-- Does `.<ext>` start here, followed by end-of-string or `?`. -/
def extMatchAt (ext : String) (l : List Char) : Bool :=
  ('.' :: ext.toList).isPrefixOf l &&
    (match l.drop ('.' :: ext.toList).length with
     | [] => true
     | c :: _ => c = '?')

/-- Embeds the extension regex test on the characters of `id`:
a match may start at any position. -/
def hasSrcExtL : List Char → Bool
  | [] => false
  | c :: rest =>
      (srcExtensions.any fun e => extMatchAt e (c :: rest)) || hasSrcExtL rest

/-- The extension test applied to a module id. -/
def testSrcExt (id : String) : Bool := hasSrcExtL id.toList

/-- The result of the `transform` hook: `null` (module untouched), or
delegation to the external transform engine with the hook's data. -/
inductive TransformResult : Type
  | untouched
  | delegated (id : String) (code : String) (pluralKeys : List String)
deriving DecidableEq, Repr

/-- The `transform` hook: only a `shouldInline` build with a recognized
source extension reaches `transformLocalize` (the external engine). -/
def transform (shouldInline : Bool) (pluralKeys : List String)
    (code id : String) : TransformResult :=
  if !shouldInline || !testSrcExt id then .untouched
  else .delegated id code pluralKeys

/-! ## `generateBundle` -/

/-- Modelled from the spec: emitted chunk code containing the
`LocalePlaceholderToken`.  The spec stipulates the token is "a unique,
non-colliding literal token", so chunk text is embedded structurally as
literal text segments interleaved with placeholder occurrences rather than
as a flat string. -/
inductive Seg : Type
  | lit (s : String)
  | placeholder
deriving DecidableEq, Repr

/-- Modelled from the spec: `replaceGlobals` of `src/transform-localize`
(a file absent from the sources; only its import is visible) substitutes
the locale placeholder token and locale-scoped globals with the concrete
locale's values in a chunk's code.  Only the substitution of the
placeholder is modelled. -/
def replaceGlobals (locale : String) (code : List Seg) : List Seg :=
  code.map (fun s =>
    match s with
    | .placeholder => .lit locale
    | .lit t => .lit t)

/-- An entry of the finished bundle: a code chunk (`'code' in chunk`) or a
plain asset with its source. -/
inductive Chunk : Type
  | code (c : List Seg)
  | asset (src : String)
deriving DecidableEq, Repr

/-- What `emitFile` receives as `source`. -/
inductive EmittedSource : Type
  | code (segs : List Seg)
  | verbatim (src : String)
deriving DecidableEq, Repr

/-- The per-file body of `generateBundle`'s inner loop. -/
def renderChunk (locale : String) : Chunk → EmittedSource
  | .code c => .code (replaceGlobals locale c)
  | .asset s => .verbatim s

/-- The emitted path: locale, slash, original file name. -/
def joinPath (locale fileName : String) : String := locale ++ "/" ++ fileName

/-- The `generateBundle` hook, as the list of `emitFile` calls it makes. -/
def generateBundle (shouldInline : Bool) (locales : List String)
    (bundle : List (String × Chunk)) : List (String × EmittedSource) :=
  if !shouldInline then []
  else locales.flatMap fun locale =>
    bundle.map fun e => (joinPath locale e.1, renderChunk locale e.2)

/-! ## Support lemmas for the bundle replication pass -/

theorem string_eq_of_data (a b : String) (h : a.data = b.data) : a = b := by
  cases a
  cases b
  simp_all

theorem noSlashChain_inj :
    ∀ (a₁ a₂ b₁ b₂ : List Char), '/' ∉ a₁ → '/' ∉ a₂ →
      a₁ ++ '/' :: b₁ = a₂ ++ '/' :: b₂ → a₁ = a₂ ∧ b₁ = b₂ := by
  intro a₁
  induction a₁ with
  | nil =>
    intro a₂ b₁ b₂ _ h2 h
    cases a₂ with
    | nil => simpa using h
    | cons c t =>
      simp only [List.nil_append, List.cons_append] at h
      injection h with hc _
      exact absurd (hc ▸ List.mem_cons_self c t) h2
  | cons c t ih =>
    intro a₂ b₁ b₂ h1 h2 h
    cases a₂ with
    | nil =>
      simp only [List.cons_append, List.nil_append] at h
      injection h with hc _
      exact absurd (hc ▸ List.mem_cons_self c t) h1
    | cons c' t' =>
      simp only [List.cons_append] at h
      injection h with hc ht
      subst hc
      have hr := ih t' b₁ b₂ (fun hm => h1 (List.mem_cons_of_mem _ hm))
        (fun hm => h2 (List.mem_cons_of_mem _ hm)) ht
      exact ⟨by rw [hr.1], hr.2⟩

theorem joinPath_data (l f : String) :
    (joinPath l f).data = l.data ++ '/' :: f.data := by
  have hslash : ("/" : String).data = ['/'] := rfl
  simp [joinPath, String.data_append, hslash]

theorem joinPath_inj (l₁ l₂ f₁ f₂ : String) (h1 : '/' ∉ l₁.data)
    (h2 : '/' ∉ l₂.data) (h : joinPath l₁ f₁ = joinPath l₂ f₂) :
    l₁ = l₂ ∧ f₁ = f₂ := by
  have hd := congrArg String.data h
  rw [joinPath_data, joinPath_data] at hd
  obtain ⟨ha, hb⟩ := noSlashChain_inj _ _ _ _ h1 h2 hd
  exact ⟨string_eq_of_data _ _ ha, string_eq_of_data _ _ hb⟩

theorem joinPath_inj_right (l : String) : Function.Injective (joinPath l) := by
  intro f₁ f₂ h
  have hd := congrArg String.data h
  rw [joinPath_data, joinPath_data] at hd
  have h2 := List.append_cancel_left hd
  injection h2 with _ h3
  exact string_eq_of_data _ _ h3

theorem generateBundle_not_inline (locales : List String)
    (bundle : List (String × Chunk)) :
    generateBundle false locales bundle = [] := rfl

theorem generateBundle_mem (locales : List String)
    (bundle : List (String × Chunk)) (loc fn : String) (ch : Chunk)
    (hl : loc ∈ locales) (hb : (fn, ch) ∈ bundle) :
    (joinPath loc fn, renderChunk loc ch) ∈ generateBundle true locales bundle := by
  show _ ∈ locales.flatMap fun locale =>
    bundle.map fun e => (joinPath locale e.1, renderChunk locale e.2)
  rw [List.mem_flatMap]
  exact ⟨loc, hl, List.mem_map.mpr ⟨(fn, ch), hb, rfl⟩⟩

theorem generateBundle_length (locales : List String)
    (bundle : List (String × Chunk)) :
    (generateBundle true locales bundle).length =
      locales.length * bundle.length := by
  show (locales.flatMap fun locale =>
    bundle.map fun e => (joinPath locale e.1, renderChunk locale e.2)).length = _
  induction locales with
  | nil => simp
  | cons x t ih =>
    rw [List.flatMap_cons, List.length_append, ih, List.length_map,
      List.length_cons, Nat.succ_mul, Nat.add_comm]

theorem generateBundle_paths_nodup (locales : List String)
    (bundle : List (String × Chunk)) (hl : locales.Nodup)
    (hb : (bundle.map Prod.fst).Nodup) (hs : ∀ l ∈ locales, '/' ∉ l.data) :
    ((generateBundle true locales bundle).map Prod.fst).Nodup := by
  show ((locales.flatMap fun locale =>
    bundle.map fun e => (joinPath locale e.1, renderChunk locale e.2)).map
      Prod.fst).Nodup
  rw [List.map_flatMap]
  rw [List.nodup_flatMap]
  constructor
  · intro loc _
    rw [List.map_map]
    have heq : (Prod.fst ∘ fun e : String × Chunk =>
        (joinPath loc e.1, renderChunk loc e.2)) =
        (joinPath loc) ∘ Prod.fst := rfl
    rw [heq, ← List.map_map]
    exact hb.map (joinPath_inj_right loc)
  · have hp : locales.Pairwise (· ≠ ·) := hl
    refine hp.imp_of_mem ?_
    intro a b ha hb' hne
    intro p hpa hpb
    simp only [List.map_map, List.mem_map] at hpa hpb
    obtain ⟨e₁, _, he₁⟩ := hpa
    obtain ⟨e₂, _, he₂⟩ := hpb
    have hj : joinPath a e₁.1 = joinPath b e₂.1 := by
      rw [show joinPath a e₁.1 = p from he₁, show joinPath b e₂.1 = p from he₂]
    exact hne (joinPath_inj a b e₁.1 e₂.1 (hs a ha) (hs b hb') hj).1

theorem placeholder_notin_replaceGlobals (locale : String) (c : List Seg) :
    Seg.placeholder ∉ replaceGlobals locale c := by
  unfold replaceGlobals
  intro h
  rw [List.mem_map] at h
  obtain ⟨s, _, hs⟩ := h
  cases s <;> simp at hs

/-! ## Support lemmas for the extension gate -/

theorem extMatchAt_iff (ext : String) (l : List Char) :
    extMatchAt ext l = true ↔
      ∃ post, l = '.' :: ext.toList ++ post ∧
        (post = [] ∨ ∃ t2, post = '?' :: t2) := by
  unfold extMatchAt
  rw [Bool.and_eq_true]
  constructor
  · rintro ⟨hpre, hrest⟩
    rw [ List.isPrefixOf_iff_prefix] at hpre
    obtain ⟨post, hpost⟩ := hpre
    refine ⟨post, hpost.symm, ?_⟩
    rw [← hpost, List.drop_left] at hrest
    cases post with
    | nil => exact Or.inl rfl
    | cons c t2 =>
      right
      refine ⟨t2, ?_⟩
      have hc : c = '?' := by simpa using hrest
      rw [hc]
  · rintro ⟨post, rfl, hpost⟩
    refine ⟨?_, ?_⟩
    · rw [ List.isPrefixOf_iff_prefix]
      exact ⟨post, rfl⟩
    · rw [List.drop_left]
      rcases hpost with rfl | ⟨t2, rfl⟩ <;> simp

/-- The regex search accepts exactly the ids with a listed extension at the
end of the string or immediately before a question mark. -/
theorem hasSrcExtL_iff (l : List Char) :
    hasSrcExtL l = true ↔
      ∃ pre ext post, ext ∈ srcExtensions ∧
        l = pre ++ '.' :: ext.toList ++ post ∧
        (post = [] ∨ ∃ t2, post = '?' :: t2) := by
  induction l with
  | nil =>
    simp only [hasSrcExtL]
    constructor
    · intro h
      cases h
    · rintro ⟨pre, ext, post, _, heq, _⟩
      exfalso
      cases pre <;> simp at heq
  | cons c rest ih =>
    simp only [hasSrcExtL, Bool.or_eq_true, List.any_eq_true]
    constructor
    · rintro (⟨e, he, hm⟩ | h)
      · rw [extMatchAt_iff] at hm
        obtain ⟨post, heq, hp⟩ := hm
        exact ⟨[], e, post, he, by simpa using heq, hp⟩
      · obtain ⟨pre, ext, post, hext, heq, hp⟩ := ih.mp h
        exact ⟨c :: pre, ext, post, hext, by simp [heq], hp⟩
    · rintro ⟨pre, ext, post, hext, heq, hp⟩
      cases pre with
      | nil =>
        left
        refine ⟨ext, hext, ?_⟩
        rw [extMatchAt_iff]
        exact ⟨post, by simpa using heq, hp⟩
      | cons c' pre' =>
        right
        apply ih.mpr
        refine ⟨pre', ext, post, hext, ?_, hp⟩
        simp only [List.cons_append] at heq
        injection heq with _ h2

/-! ## Concrete locale directories used to evaluate the fallback walk -/

/-- A single locale whose file names itself as its own fallback — a
fallback cycle of length 1. -/
def fsSelfFallback : LocaleFS := fun l =>
  if l = "aa" then
    some { locale := "aa", name := some "aa", fallback := some "aa",
           translations := [] }
  else none

/-- An acyclic fallback chain `cc → bb → aa`, listed in dependency order. -/
def fsChain : LocaleFS := fun l =>
  if l = "aa" then
    some { locale := "aa", name := some "aa", translations := [] }
  else if l = "bb" then
    some { locale := "bb", name := some "bb", fallback := some "aa",
           translations := [] }
  else if l = "cc" then
    some { locale := "cc", name := some "cc", fallback := some "bb",
           translations := [] }
  else none

/-! ## The claims -/

/-- C1: a fallback cycle of length 1 (a locale whose fallback is itself) is
*not* rejected: `buildStart` returns normally and even records the
self-loop in the fallback map, contradicting the required fatal
circular-fallback error.  (The walk consults `fallbacks[data.fallback]`
before the current locale's own edge has been inserted, so a self-loop is
invisible to it.) -/
theorem c1_self_fallback_accepted :
    ∃ st, buildStart ["aa"] fsSelfFallback = StepResult.ok st ∧
      alookup st.fallbacks "aa" = some "aa" := by
  exact ⟨_, rfl, rfl⟩

/-- C2: the cycle-detection walk does not always terminate.  On the
*acyclic* chain `cc → bb → aa`, processed in the order `aa, bb, cc`, the
walk for `cc` re-reads `fallbacks["bb"] = "aa"` forever: the embedded loop
reports divergence, and the fuelled literal loop exhausts every fuel
bound. -/
theorem c2_acyclic_chain_diverges :
    (∃ st, buildStart ["aa", "bb", "cc"] fsChain = StepResult.diverge st) ∧
      ∀ n, walkFuel [("bb", "aa")] "cc" "bb" n = none := by
  refine ⟨⟨_, rfl⟩, ?_⟩
  intro n
  induction n with
  | zero => rfl
  | succ k ih =>
    show walkFuel [("bb", "aa")] "cc" "bb" (k + 1) = none
    have h1 : alookup [("bb", "aa")] "bb" = some "aa" := rfl
    simp only [walkFuel, h1]
    simpa using ih

/-- C5: the locale-code validation accepts exactly the strings matching
`^[a-z]{2}([_-][A-Z]{2})?$` — two lowercase letters, optionally an
underscore or hyphen and two uppercase letters; a non-matching code makes
its loop iteration throw the invalid-locale error naming that code, and a
successful `buildStart` has accepted (matched) every configured code. -/
theorem c5_locale_pattern :
    (∀ s, (localeMatch s).isSome = true ↔ specLocalePattern s) ∧
    (∀ cfg st locale l' st',
      processLocale cfg st locale = .err (.invalidLocale l') st' ↔
        localeMatch locale = none ∧ l' = locale ∧ st' = st) ∧
    (∀ cfg fs st, buildStart cfg fs = .ok st →
      ∀ l ∈ cfg, (localeMatch l).isSome = true) := by
  refine ⟨localeMatch_isSome_iff, processLocale_invalidLocale_iff, ?_⟩
  intro cfg fs st hok l hl
  exact buildStartAux_ok_valid cfg cfg (initState fs) st hok l hl

/-- C5 witness: `"e1"` fails the pattern and is rejected by name, `"en"`
matches the spec's pattern. -/
theorem c5_locale_pattern_witness :
    processLocale ["en"] (initState fun _ => none) "e1" =
      .err (.invalidLocale "e1") (initState fun _ => none) ∧
    specLocalePattern "en" := by
  exact ⟨(c5_locale_pattern.2.1 ["en"] (initState fun _ => none) "e1" "e1"
            (initState fun _ => none)).mpr ⟨rfl, rfl, rfl⟩,
         (c5_locale_pattern.1 "en").mp rfl⟩

/-- C6: the locales virtual module is empty exactly in inlined mode; in
server mode its entries re-export, for exactly the configured locales, the
locale's translation file, keyed by the locale code; and `shouldInline` is
`!!config.build.ssr || !config.isProduction`. -/
theorem c6_locales_module :
    (∀ si locales dir, loadLocalesModule si locales dir = .empty ↔ si = true) ∧
    (∀ si locales dir entries, si = false →
      loadLocalesModule si locales dir = .reexports entries →
      ∀ l p, (l, p) ∈ entries ↔ l ∈ locales ∧ p = dir ++ "/" ++ l ++ ".json") ∧
    (∀ config, computeShouldInline config = true ↔
      (jsTruthy config.ssr = true ∨ config.isProduction = false)) := by
  refine ⟨?_, ?_, ?_⟩
  · intro si locales dir
    cases si <;> simp [loadLocalesModule]
  · intro si locales dir entries hsi hload l p
    subst hsi
    unfold loadLocalesModule at hload
    rw [if_neg (by simp)] at hload
    injection hload with h1
    subst h1
    rw [List.mem_map]
    constructor
    · rintro ⟨l', hl', heq⟩
      obtain ⟨h2, h3⟩ := Prod.mk.injEq .. ▸ heq
      exact ⟨h2 ▸ hl', by rw [← h3, h2]⟩
    · rintro ⟨hl, rfl⟩
      exact ⟨l, hl, rfl⟩
  · intro config
    unfold computeShouldInline
    cases hssr : jsTruthy config.ssr <;> cases hprod : config.isProduction <;>
      simp

/-- C6 witness: a server-mode (non-inlined) load of the locales module for
one configured locale. -/
theorem c6_locales_module_witness :
    (("en", "/app/i18n/en.json") ∈
        [("en", "/app/i18n/en.json")] ↔
      "en" ∈ ["en"] ∧ "/app/i18n/en.json" = "/app/i18n" ++ "/" ++ "en" ++ ".json") ∧
    (loadLocalesModule false ["en"] "/app/i18n" = .empty ↔ False) := by
  constructor
  · exact c6_locales_module.2.1 false ["en"] "/app/i18n"
      [("en", "/app/i18n/en.json")] rfl rfl "en" "/app/i18n/en.json"
  · rw [c6_locales_module.1 false ["en"] "/app/i18n"]
    simp

/-- C9: the `transform` hook leaves a module untouched exactly when the
build is not inlining or the id lacks a listed extension ending the path or
preceding a `?`; only with `shouldInline` and a matching extension does it
hand the module to the external engine; and the extension test is exactly
the spec's description. -/
theorem c9_transform_gate :
    (∀ si pk code id, transform si pk code id = .untouched ↔
      (si = false ∨ testSrcExt id = false)) ∧
    (∀ si pk code id, si = true → testSrcExt id = true →
      transform si pk code id = .delegated id code pk) ∧
    (∀ id, testSrcExt id = true ↔
      ∃ pre ext post, ext ∈ srcExtensions ∧
        id.toList = pre ++ '.' :: ext.toList ++ post ∧
        (post = [] ∨ ∃ t2, post = '?' :: t2)) := by
  refine ⟨?_, ?_, ?_⟩
  · intro si pk code id
    cases si <;> cases ht : testSrcExt id <;> simp [transform, ht]
  · intro si pk code id hsi ht
    subst hsi
    simp [transform, ht]
  · intro id
    exact hasSrcExtL_iff id.toList

/-- C9 witness: a non-inlined build and a `.css` id are untouched, an
inlined `.js` id is delegated. -/
theorem c9_transform_gate_witness :
    transform true ["k"] "code" "/src/app.js" = .delegated "/src/app.js" "code" ["k"] ∧
    (transform false ["k"] "code" "/src/app.js" = .untouched ↔
      (false = false ∨ testSrcExt "/src/app.js" = false)) ∧
    (transform true ["k"] "code" "/src/style.css" = .untouched ↔
      (true = false ∨ testSrcExt "/src/style.css" = false)) := by
  exact ⟨c9_transform_gate.2.1 true ["k"] "code" "/src/app.js" rfl rfl,
         c9_transform_gate.1 false ["k"] "code" "/src/app.js",
         c9_transform_gate.1 true ["k"] "code" "/src/style.css"⟩

/-- C10: `buildStart` never writes to an existing locale file — every file
present at start has identical content in the final file system, whatever
the outcome — and any file it does touch was absent and now holds exactly
the synthesized default record for its locale. -/
theorem c10_no_overwrite (cfg : List String) (fs : LocaleFS) :
    (∀ l d, fs l = some d → ((buildStart cfg fs).state).fs l = some d) ∧
    (∀ k, ((buildStart cfg fs).state).fs k = fs k ∨
      (fs k = none ∧ ∃ m, localeMatch k = some m ∧
        ((buildStart cfg fs).state).fs k = some (mkDefault k m))) := by
  constructor
  · intro l d h
    exact buildStartAux_fs_mono cfg cfg (initState fs) l d h
  · exact buildStartAux_fsEvolved cfg cfg (initState fs) fs (fsEvolved_refl fs)

/-- C10 witness: an existing `aa.json` survives a `buildStart` over a list
that also synthesizes a missing locale. -/
theorem c10_no_overwrite_witness :
    fsSelfFallback "aa" =
      some { locale := "aa", name := some "aa", fallback := some "aa",
             translations := [] } ∧
    ((buildStart ["aa", "zz"] fsSelfFallback).state).fs "aa" =
      some { locale := "aa", name := some "aa", fallback := some "aa",
             translations := [] } := by
  exact ⟨rfl, (c10_no_overwrite ["aa", "zz"] fsSelfFallback).1 "aa" _ rfl⟩

/-- C3: in inlined mode `generateBundle` emits, per configured locale and
bundle file, exactly one copy at `<locale>/<originalFileName>` — code
chunks with every placeholder occurrence substituted, assets verbatim —
and in non-inlined mode it emits nothing. -/
theorem c3_bundle_replication :
    (∀ locales bundle, generateBundle false locales bundle = []) ∧
    (∀ locales bundle loc fn ch, loc ∈ locales → (fn, ch) ∈ bundle →
      (joinPath loc fn, renderChunk loc ch) ∈ generateBundle true locales bundle) ∧
    (∀ locales bundle, (generateBundle true locales bundle).length =
      locales.length * bundle.length) ∧
    (∀ locales bundle, locales.Nodup → (bundle.map Prod.fst).Nodup →
      (∀ l ∈ locales, '/' ∉ l.data) →
      ((generateBundle true locales bundle).map Prod.fst).Nodup) ∧
    (∀ loc c, Seg.placeholder ∉ replaceGlobals loc c) ∧
    (∀ loc s, renderChunk loc (Chunk.asset s) = .verbatim s) :=
  ⟨generateBundle_not_inline, generateBundle_mem, generateBundle_length,
   generateBundle_paths_nodup, placeholder_notin_replaceGlobals,
   fun _ _ => rfl⟩

/-- C3 witness: a two-locale, two-file bundle — the `en` copy of the code
chunk is emitted at its locale-prefixed path, all emitted paths are
distinct, and no placeholder survives substitution. -/
theorem c3_bundle_replication_witness :
    (joinPath "en" "assets/index.js",
      renderChunk "en" (Chunk.code [Seg.lit "let L=", Seg.placeholder])) ∈
        generateBundle true ["en", "fr"]
          [("assets/index.js", Chunk.code [Seg.lit "let L=", Seg.placeholder]),
           ("logo.png", Chunk.asset "PNG")] ∧
    ((generateBundle true ["en", "fr"]
        [("assets/index.js", Chunk.code [Seg.lit "let L=", Seg.placeholder]),
         ("logo.png", Chunk.asset "PNG")]).map Prod.fst).Nodup ∧
    Seg.placeholder ∉ replaceGlobals "en" [Seg.lit "let L=", Seg.placeholder] := by
  refine ⟨?_, ?_, ?_⟩
  · exact c3_bundle_replication.2.1 ["en", "fr"] _ "en" "assets/index.js" _
      (by decide) (by simp)
  · exact c3_bundle_replication.2.2.2.1 ["en", "fr"] _ (by decide) (by decide)
      (by decide)
  · exact c3_bundle_replication.2.2.2.2.1 "en" _

/-- C4: after a successful `buildStart`, a key is in `pluralKeys` iff its
value is an object in at least one configured locale's file, and
membership is unchanged under permuting the configured locale list. -/
theorem c4_pluralKeys_global (cfg cfg' : List String) (fs : LocaleFS)
    (st st' : BuildState) (k : String)
    (hok : buildStart cfg fs = .ok st) (hok' : buildStart cfg' fs = .ok st')
    (hperm : cfg.Perm cfg') :
    (k ∈ st.pluralKeys ↔
      ∃ l ∈ cfg, ∃ d, fs l = some d ∧
        ∃ forms, (k, TrValue.obj forms) ∈ d.translations) ∧
    (k ∈ st.pluralKeys ↔ k ∈ st'.pluralKeys) := by
  have h1 := buildStart_pluralKeys cfg fs st hok k
  have h2 := buildStart_pluralKeys cfg' fs st' hok' k
  refine ⟨h1, ?_⟩
  rw [h1, h2]
  constructor
  · rintro ⟨l, hl, hrest⟩
    exact ⟨l, hperm.mem_iff.mp hl, hrest⟩
  · rintro ⟨l, hl, hrest⟩
    exact ⟨l, hperm.mem_iff.mpr hl, hrest⟩

/-- The directory for the C4 witness: `hello` is an object in `aa` but a
plain string in `bb`. -/
def fs4 : LocaleFS := fun l =>
  if l = "aa" then
    some { locale := "aa", name := some "aa",
           translations := [("hello", .obj [("one", "x"), ("other", "y")])] }
  else if l = "bb" then
    some { locale := "bb", name := some "bb",
           translations := [("hello", .str "z")] }
  else none

/-- C4 witness: both processing orders succeed and agree that `hello` is
plural. -/
theorem c4_pluralKeys_global_witness :
    ∃ st st', buildStart ["aa", "bb"] fs4 = .ok st ∧
      buildStart ["bb", "aa"] fs4 = .ok st' ∧
      (("hello" ∈ st.pluralKeys ↔
        ∃ l ∈ ["aa", "bb"], ∃ d, fs4 l = some d ∧
          ∃ forms, ("hello", TrValue.obj forms) ∈ d.translations) ∧
       ("hello" ∈ st.pluralKeys ↔ "hello" ∈ st'.pluralKeys)) := by
  refine ⟨_, _, rfl, rfl, ?_⟩
  exact c4_pluralKeys_global ["aa", "bb"] ["bb", "aa"] fs4 _ _ "hello" rfl rfl
    (List.Perm.swap "bb" "aa" [])

/-- C7: a configured locale whose file was absent ends the (successful)
build with the synthesized default on disk — the requested code, the
defaulted name, empty translations — and re-processing that file later
succeeds and stores the very same record without writing. -/
theorem c7_default_roundtrip (cfg : List String) (fs : LocaleFS)
    (st : BuildState) (l : String) (hok : buildStart cfg fs = .ok st)
    (hl : l ∈ cfg) (habs : fs l = none) :
    ∃ m, localeMatch l = some m ∧
      st.fs l = some (mkDefault l m) ∧
      (mkDefault l m).locale = l ∧
      (mkDefault l m).name = some (defaultName l m) ∧
      (mkDefault l m).translations = [] ∧
      ∀ (cfg' : List String) (st₂ : BuildState),
        st₂.fs l = some (mkDefault l m) →
        processLocale cfg' st₂ l = .ok (storeData st₂ l (mkDefault l m)) ∧
        alookup (storeData st₂ l (mkDefault l m)).translations l =
          some (mkDefault l m) := by
  obtain ⟨m, hm, hfile⟩ :=
    buildStartAux_mem_none cfg cfg (initState fs) st hok l hl habs
  refine ⟨m, hm, hfile, rfl, rfl, rfl, ?_⟩
  intro cfg' st₂ hst₂
  exact ⟨processLocale_default_file cfg' st₂ l m hm hst₂,
         alookup_aset_self st₂.translations l (mkDefault l m)⟩

/-- C7 witness: a build over one absent locale synthesizes `de.json` and
the record round-trips. -/
theorem c7_default_roundtrip_witness :
    ∃ st, buildStart ["de"] (fun _ => none) = .ok st ∧
      ∃ m, localeMatch "de" = some m ∧
        st.fs "de" = some (mkDefault "de" m) ∧
        (mkDefault "de" m).locale = "de" ∧
        (mkDefault "de" m).name = some (defaultName "de" m) ∧
        (mkDefault "de" m).translations = [] ∧
        ∀ (cfg' : List String) (st₂ : BuildState),
          st₂.fs "de" = some (mkDefault "de" m) →
          processLocale cfg' st₂ "de" = .ok (storeData st₂ "de" (mkDefault "de" m)) ∧
          alookup (storeData st₂ "de" (mkDefault "de" m)).translations "de" =
            some (mkDefault "de" m) := by
  refine ⟨_, rfl, ?_⟩
  exact c7_default_roundtrip ["de"] (fun _ => none) _ "de" rfl (by simp) rfl

theorem mem_of_alookup_eq_some {α : Type} (m : List (String × α)) (k : String)
    (v : α) (h : alookup m k = some v) : (k, v) ∈ m := by
  unfold alookup at h
  cases hf : m.find? (fun p => p.1 = k) with
  | none =>
    rw [hf] at h
    cases h
  | some pair =>
    rw [hf] at h
    injection h with h1
    have hp := List.find?_some hf
    have hmem := List.mem_of_find?_eq_some hf
    have hk : pair.1 = k := by simpa using hp
    have hpair : pair = (k, v) := by
      cases pair
      simp_all
    rw [← hpair]
    exact hmem

/-- C8: in the generated state module, `setDefaultLocale` throws a
`TypeError` naming the locale exactly when the code has no (truthy) entry
in the known-locale-name mapping, and stores a known one; the getter
installed by `setLocaleGetter` validates its effective result (the
function's value, or the default locale if that was falsy) the same way,
throwing at the call or caching-and-returning a known locale. -/
theorem c8_state_module_validation (names : List (String × String))
    (st : I18nState) (l : String) (r : Option String)
    (hnames : ∀ p ∈ names, p.2 ≠ "") :
    (setDefaultLocale names st l = .typeError l ↔ alookup names l = none) ∧
    (alookup names l ≠ none →
      setDefaultLocale names st l = .ok { st with defaultLocale := l }) ∧
    (registeredGetLocale names st r = .typeError (effectiveLocale st r) ↔
      alookup names (effectiveLocale st r) = none) ∧
    (alookup names (effectiveLocale st r) ≠ none →
      registeredGetLocale names st r =
        .ok ({ st with currentLocale := effectiveLocale st r },
             effectiveLocale st r)) := by
  have hcheck : ∀ x, checkLocale names x = true ↔ alookup names x ≠ none := by
    intro x
    unfold checkLocale
    cases ha : alookup names x with
    | none => simp [isTruthy]
    | some v =>
      have hv : v ≠ "" :=
        hnames (x, v) (mem_of_alookup_eq_some names x v ha)
      simp [isTruthy, hv]
  have hfalse : ∀ x, checkLocale names x = false → alookup names x = none := by
    intro x hc
    by_contra hne
    exact absurd ((hcheck x).mpr hne) (by rw [hc]; exact Bool.false_ne_true)
  refine ⟨?_, ?_, ?_, ?_⟩
  · unfold setDefaultLocale
    cases hc : checkLocale names l with
    | true => simp [(hcheck l).mp hc]
    | false => simp [hfalse l hc]
  · intro hne
    unfold setDefaultLocale
    rw [if_pos ((hcheck l).mpr hne)]
  · unfold registeredGetLocale
    cases hc : checkLocale names (effectiveLocale st r) with
    | true => simp [(hcheck _).mp hc]
    | false => simp [hfalse _ hc]
  · intro hne
    unfold registeredGetLocale
    rw [if_pos ((hcheck _).mpr hne)]

/-- C8 witness: with known locale `en`, setting `en` is stored, setting
`xx` throws, and the getter validates its fallback result. -/
theorem c8_state_module_validation_witness :
    setDefaultLocale [("en", "English")] ⟨"en", "en"⟩ "en" =
      .ok { defaultLocale := "en", currentLocale := "en" } ∧
    (setDefaultLocale [("en", "English")] ⟨"en", "en"⟩ "xx" = .typeError "xx" ↔
      alookup [("en", "English")] "xx" = none) ∧
    (registeredGetLocale [("en", "English")] ⟨"en", "en"⟩ (some "zz") =
        .typeError (effectiveLocale ⟨"en", "en"⟩ (some "zz")) ↔
      alookup [("en", "English")] (effectiveLocale ⟨"en", "en"⟩ (some "zz")) = none) := by
  refine ⟨?_, ?_, ?_⟩
  · exact (c8_state_module_validation [("en", "English")] ⟨"en", "en"⟩ "en"
      none (by decide)).2.1 (by decide)
  · exact (c8_state_module_validation [("en", "English")] ⟨"en", "en"⟩ "xx"
      none (by decide)).1
  · exact (c8_state_module_validation [("en", "English")] ⟨"en", "en"⟩ "xx"
      (some "zz") (by decide)).2.2.1

end I18n
